import Mathlib

/-!
Verification of the xPilot notification-panel slice.

String helpers are translated from src/Utilities.h; a std::string is
modelled as its list of characters. The notification panel class is
declared in the repository header (src/unnamed/part_000) but its
implementation file NotificationPanel.cpp is not part of the sources,
so the panel operations are modelled from the specification (spec.md,
sections 3 and 4.1) and are marked as such below.
-/

namespace Plugin

/-- Characters of a std::string, one entry per character. -/
abbrev Str := List Char

/-- Loop of the source's join helper (src/Utilities.h lines 105-110):
appends each element of the list, inserting the separator character
after every element except the last. -/
def joinLoop : List Str → Char → Str
  | [], _ => []
  | [x], _ => x
  | x :: y :: rest, c => x ++ c :: joinLoop (y :: rest) c

/-- Translation of join (src/Utilities.h lines 99-111). The iterator is
incremented twice before the loop, so elements 0 and 1 are skipped.
Incrementing the begin iterator past the end, which happens when the
vector has fewer than two elements, is undefined behavior and is
modelled as none. -/
def join (v : List Str) (c : Char) : Option Str :=
  if v.length < 2 then none
  else some (joinLoop (v.drop 2) c)

/-- Modulus of size_t arithmetic. -/
def size_t_mod : Nat := 2 ^ 64

/-- Wrapping size_t subtraction, defined for b ≤ 2^64. -/
def size_t_sub (a b : Nat) : Nat := (a + (size_t_mod - b)) % size_t_mod

/-- Translation of strAtMost (src/Utilities.h lines 59-62). The bound m
is a size_t, so the subtraction m - 3 in the substr count wraps modulo
2^64 when m < 3; substr(0, count) takes at most count characters. -/
def strAtMost (s : Str) (m : Nat) : Str :=
  if s.length ≤ m then s else s.take (size_t_sub m 3) ++ ['.', '.', '.']

/-- Null character. -/
def NUL : Char := Char.ofNat 0

/-- Model of C strncpy(dest, src, size) viewed as the size cells of dest
it writes: the first size characters of src, padded with null characters
when src is shorter. src lists the characters of the source C string
that precede its terminator. -/
def strncpy (src : Str) (size : Nat) : Str :=
  src.take size ++ List.replicate (size - src.length) NUL

/-- Translation of strScpy (src/Utilities.h lines 52-57): strncpy
followed by forcing a terminator into cell size - 1. A call with
size = 0 would write dest[-1] and is outside the claim's hypothesis. -/
def strScpy (src : Str) (size : Nat) : Str :=
  (strncpy src size).set (size - 1) NUL

/-- Model of std::tolower applied to an unsigned char in the C locale:
ASCII uppercase letters are shifted to lowercase, all else unchanged. -/
def byte_tolower (c : Nat) : Nat := if 65 ≤ c ∧ c ≤ 90 then c + 32 else c

/-- Model of toupper applied to an unsigned char in the C locale. -/
def byte_toupper (c : Nat) : Nat := if 97 ≤ c ∧ c ≤ 122 then c - 32 else c

/-- Translation of str_tolower (src/Utilities.h lines 66-69): transforms
every character of the string, viewed here as its list of bytes. -/
def str_tolower (s : List Nat) : List Nat := s.map byte_tolower

/-- Translation of str_toupper (src/Utilities.h lines 70-73). -/
def str_toupper (s : List Nat) : List Nat := s.map byte_toupper

/-- Translation of tokenize (src/Utilities.h lines 75-97).
find_first_of(delimiters, lastPos) scans from the current position for
the next delimiter: the characters before it are the takeWhile of the
non-delimiter predicate and the rest is the dropWhile. A token is
pushed unless it is empty and trimEmpty is set; the loop resumes one
past the delimiter and also runs once when lastPos equals the length,
so a trailing delimiter yields a final (possibly empty) token. -/
def tokenize (str : Str) (delimiters : Str) (trimEmpty : Bool) : List Str :=
  if (str.dropWhile (fun ch => !delimiters.contains ch)).isEmpty then
    if (str.takeWhile (fun ch => !delimiters.contains ch)).isEmpty && trimEmpty then []
    else [str.takeWhile (fun ch => !delimiters.contains ch)]
  else
    (if (str.takeWhile (fun ch => !delimiters.contains ch)).isEmpty && trimEmpty then []
     else [str.takeWhile (fun ch => !delimiters.contains ch)])
      ++ tokenize (str.dropWhile (fun ch => !delimiters.contains ch)).tail delimiters trimEmpty
termination_by str.length
decreasing_by
  rename_i h
  have hle : (str.dropWhile (fun ch => !delimiters.contains ch)).length ≤ str.length :=
    (List.dropWhile_suffix (fun ch => !delimiters.contains ch)).sublist.length_le
  cases hd : str.dropWhile (fun ch => !delimiters.contains ch) with
  | nil => rw [hd] at h; simp at h
  | cons d rest =>
    rw [hd] at hle
    simp only [List.tail_cons, List.length_cons] at hle ⊢
    omega

/-- Message stored by the notification panel: text and an RGB color. -/
structure NotificationMessage where
  text : String
  red : Int
  green : Int
  blue : Int
deriving DecidableEq

/-- Modelled from the spec: PanelState of spec.md section 3. The
implementation file NotificationPanel.cpp is missing from the sources;
only the class declaration (src/unnamed/part_000) is present. Fields
follow the spec's PanelState plus the stored visibility of its
two-state machine (states Hidden and Visible, initial state Hidden). -/
structure PanelState where
  messages : List NotificationMessage
  disappearDeadline : Int
  alwaysVisible : Bool
  scrollToBottomPending : Bool
  visible : Bool
deriving DecidableEq

/-- Modelled from the spec: panel state at plugin startup, before any
message arrives (spec.md section 4.1, initial state Hidden). -/
def initialPanel : PanelState :=
  { messages := [], disappearDeadline := 0, alwaysVisible := false,
    scrollToBottomPending := false, visible := false }

/-- Example of a visible, unpinned panel state with deadline 10, used to
instantiate the panel theorems on concrete inputs. -/
def demoVisiblePanel : PanelState :=
  { messages := [], disappearDeadline := 10, alwaysVisible := false,
    scrollToBottomPending := false, visible := true }

/-- Modelled from the spec: clamping of a color component into [0, 255]
(spec.md section 4.1 failure semantics; NotificationPanel.cpp is not in
the sources). -/
def clampColor (x : Int) : Int := max 0 (min 255 x)

/-- Modelled from the spec: AddNotificationPanelMessage, named AddMessage
in spec.md section 4.1 (NotificationPanel.cpp is not in the sources).
Appends the message with clamped color; if the sequence exceeds the
fixed capacity, evicts the oldest entry; resets the deadline to
now + display duration unless alwaysVisible is set; requests a scroll
to bottom; the panel becomes visible. -/
def AddNotificationPanelMessage (capacity : Nat) (duration now : Int)
    (s : PanelState) (text : String) (red green blue : Int) : PanelState :=
  let appended :=
    s.messages ++ [⟨text, clampColor red, clampColor green, clampColor blue⟩]
  { s with
    messages := if capacity < appended.length then appended.tail else appended,
    disappearDeadline := if s.alwaysVisible then s.disappearDeadline else now + duration,
    scrollToBottomPending := true,
    visible := true }

/-- Modelled from the spec: a call of AddNotificationPanelMessage that
leaves the color at the declared defaults red = green = blue = 255
(src/unnamed/part_000 line 35). -/
def AddNotificationPanelMessageDefault (capacity : Nat) (duration now : Int)
    (s : PanelState) (text : String) : PanelState :=
  AddNotificationPanelMessage capacity duration now s text 255 255 255

/-- Modelled from the spec: Toggle flips alwaysVisible; turning it on
makes the panel visible immediately; turning it off reverts visibility
to the deadline rule, applied by the next tick (spec.md section 4.1). -/
def Toggle (s : PanelState) : PanelState :=
  let av := !s.alwaysVisible
  { s with alwaysVisible := av, visible := av || s.visible }

/-- Modelled from the spec: the per-frame tick onFlightLoop, named
Tick(nowSeconds) in spec.md section 4.1: if not alwaysVisible and now
has reached disappearDeadline, the panel transitions to hidden; nothing
else changes. -/
def onFlightLoop (now : Int) (s : PanelState) : PanelState :=
  if !s.alwaysVisible && s.disappearDeadline ≤ now then
    { s with visible := false }
  else s

/-- Argument record of one AddNotificationPanelMessage call. -/
structure AddInput where
  now : Int
  text : String
  red : Int
  green : Int
  blue : Int
deriving DecidableEq

/-- Message a call stores once its color is clamped. -/
def mkMessage (a : AddInput) : NotificationMessage :=
  ⟨a.text, clampColor a.red, clampColor a.green, clampColor a.blue⟩

/-- Sequence of AddNotificationPanelMessage calls applied in order. -/
def applyAdds (capacity : Nat) (duration : Int) (s : PanelState)
    (calls : List AddInput) : PanelState :=
  calls.foldl
    (fun st a =>
      AddNotificationPanelMessage capacity duration a.now st a.text a.red a.green a.blue)
    s

/-- Last n elements of a list, in order. -/
def lastN (n : Nat) (l : List α) : List α := l.drop (l.length - n)

theorem joinLoop_eq_intercalate (l : List Str) (c : Char) :
    joinLoop l c = List.intercalate [c] l := by
  induction l with
  | nil => simp [joinLoop, List.intercalate]
  | cons x tl ih =>
    cases tl with
    | nil => simp [joinLoop, List.intercalate]
    | cons y rest =>
      rw [joinLoop, ih]
      simp [List.intercalate, List.intersperse_cons_cons]

/-- C5: join sets its output to the elements of v from index 2 on,
separated by the separator character, never touching v[0] or v[1]; a
vector of fewer than two elements makes the initial double iterator
increment undefined, excluded here by the hypothesis. -/
theorem join_skips_first_two (v : List Str) (c : Char) (h : 2 ≤ v.length) :
    join v c = some (List.intercalate [c] (v.drop 2)) := by
  unfold join
  rw [if_neg (by omega), joinLoop_eq_intercalate]

/-- Witness for C5 at v = [a, b, c, d]: the output keeps only c and d. -/
theorem join_skips_first_two_witness :
    join [['a'], ['b'], ['c'], ['d']] ',' = some (List.intercalate [','] [['c'], ['d']])
    ∧ List.intercalate [','] [['c'], ['d']] = ['c', ',', 'd'] :=
  ⟨join_skips_first_two [['a'], ['b'], ['c'], ['d']] ',' (by decide), by decide⟩

/-- C6 counterexample: at s = "abc" and m = 2 the size_t subtraction
m - 3 wraps around, substr takes the whole string, and the result
"abc..." has length 6, exceeding the bound m = 2. -/
theorem strAtMost_length_cex :
    strAtMost ['a', 'b', 'c'] 2 = ['a', 'b', 'c', '.', '.', '.']
    ∧ (strAtMost ['a', 'b', 'c'] 2).length = 6
    ∧ ¬((strAtMost ['a', 'b', 'c'] 2).length ≤ 2) := by
  refine ⟨?_, ?_, ?_⟩ <;> decide

/-- C6 amended: for m ≥ 3 (m a size_t value), strAtMost returns s
unchanged when s.length ≤ m and otherwise the first m - 3 characters
followed by "...", of length exactly m; for m < 3 the subtraction m - 3
wraps modulo 2^64 and the truncated branch returns all of s followed by
"...", exceeding the bound. -/
theorem strAtMost_spec (s : Str) (m : Nat) (h3 : 3 ≤ m) (h64 : m < 2 ^ 64) :
    (s.length ≤ m → strAtMost s m = s)
    ∧ (m < s.length →
        strAtMost s m = s.take (m - 3) ++ ['.', '.', '.']
        ∧ (strAtMost s m).length = m) := by
  have hsub : size_t_sub m 3 = m - 3 := by
    unfold size_t_sub size_t_mod
    have hm : m + (2 ^ 64 - 3) = (m - 3) + 2 ^ 64 := by omega
    rw [hm, Nat.add_mod_right, Nat.mod_eq_of_lt (by omega)]
  constructor
  · intro h
    simp [strAtMost, h]
  · intro h
    have hne : ¬s.length ≤ m := by omega
    refine ⟨by simp [strAtMost, hne, hsub], ?_⟩
    have hlen3 : (['.', '.', '.'] : Str).length = 3 := rfl
    simp only [strAtMost, hne, if_false, hsub, List.length_append, List.length_take, hlen3]
    have hmin : min (m - 3) s.length = m - 3 := Nat.min_eq_left (by omega)
    rw [hmin]
    omega

/-- Witness for the amended C6 at s = "abcdef" and m = 5. -/
theorem strAtMost_spec_witness :
    strAtMost ['a', 'b', 'c', 'd', 'e', 'f'] 5
      = ['a', 'b', 'c', 'd', 'e', 'f'].take 2 ++ ['.', '.', '.']
    ∧ (strAtMost ['a', 'b', 'c', 'd', 'e', 'f'] 5).length = 5 :=
  (strAtMost_spec ['a', 'b', 'c', 'd', 'e', 'f'] 5 (by decide) (by decide)).2 (by decide)

theorem strncpy_length (src : Str) (size : Nat) : (strncpy src size).length = size := by
  simp only [strncpy, List.length_append, List.length_take, List.length_replicate]
  omega

/-- C9: strScpy writes a buffer of exactly size cells whose last cell is
the null terminator, and whose first min(strlen(src), size - 1) cells
are the corresponding characters of src. -/
theorem strScpy_spec (src : Str) (size : Nat) (h : 1 ≤ size) :
    (strScpy src size).length = size
    ∧ (strScpy src size).getD (size - 1) 'A' = NUL
    ∧ (strScpy src size).take (min src.length (size - 1))
        = src.take (min src.length (size - 1)) := by
  have hlen : (strScpy src size).length = size := by
    simp [strScpy, List.length_set, strncpy_length]
  refine ⟨hlen, ?_, ?_⟩
  · have hidx : size - 1 < (strncpy src size).length := by
      rw [strncpy_length]; omega
    simp [strScpy, List.getD_eq_getElem?_getD, List.getElem?_set_self hidx]
  · rw [strScpy, List.set_take, List.set_eq_of_length_le]
    · rw [strncpy, List.take_append_eq_append_take]
      rcases Nat.le_total src.length (size - 1) with hle | hge
      · have hminl : min src.length (size - 1) = src.length := Nat.min_eq_left hle
        rw [hminl]
        have h1 : (src.take size).take src.length = src := by
          rw [List.take_take, Nat.min_eq_left (by omega), List.take_length]
        have h2 : (src.take size).length = src.length := by
          rw [List.length_take]
          omega
        rw [h1, h2, Nat.sub_self, List.take_zero, List.append_nil, List.take_length]
      · have hminl : min src.length (size - 1) = size - 1 := Nat.min_eq_right hge
        rw [hminl]
        have h1 : (src.take size).take (size - 1) = src.take (size - 1) := by
          rw [List.take_take, Nat.min_eq_left (by omega)]
        have h2 : size - 1 - (src.take size).length = 0 := by
          rw [List.length_take]; omega
        rw [h1, h2, List.take_zero, List.append_nil]
    · rw [List.length_take, strncpy_length]
      omega

/-- Witness for C9 at src = "hello" and size = 3: the buffer is
['h', 'e', NUL]. -/
theorem strScpy_spec_witness :
    (strScpy ['h', 'e', 'l', 'l', 'o'] 3).length = 3
    ∧ (strScpy ['h', 'e', 'l', 'l', 'o'] 3).getD 2 'A' = NUL
    ∧ (strScpy ['h', 'e', 'l', 'l', 'o'] 3).take (min 5 2)
        = ['h', 'e', 'l', 'l', 'o'].take (min 5 2) :=
  strScpy_spec ['h', 'e', 'l', 'l', 'o'] 3 (by decide)

theorem byte_tolower_idem (c : Nat) : byte_tolower (byte_tolower c) = byte_tolower c := by
  unfold byte_tolower
  split
  · split <;> omega
  · rfl

theorem byte_toupper_idem (c : Nat) : byte_toupper (byte_toupper c) = byte_toupper c := by
  unfold byte_toupper
  split
  · split <;> omega
  · rfl

/-- C10: str_tolower and str_toupper are idempotent on every string. -/
theorem str_tolower_toupper_idempotent (s : List Nat) :
    str_tolower (str_tolower s) = str_tolower s
    ∧ str_toupper (str_toupper s) = str_toupper s := by
  constructor
  · simp only [str_tolower, List.map_map]
    exact List.map_congr_left fun c _ => byte_tolower_idem c
  · simp only [str_toupper, List.map_map]
    exact List.map_congr_left fun c _ => byte_toupper_idem c

theorem length_modifyHead (f : α → α) (l : List α) :
    (l.modifyHead f).length = l.length := by
  cases l <;> simp

theorem tokenize_nil (delimiters : Str) (trimEmpty : Bool) :
    tokenize [] delimiters trimEmpty = if trimEmpty then [] else [[]] := by
  rw [tokenize]
  simp

theorem tokenize_cons_delim (delimiters : Str) (ch : Char) (tl : Str)
    (h : delimiters.contains ch = true) :
    tokenize (ch :: tl) delimiters false = [] :: tokenize tl delimiters false := by
  have hm : ch ∈ delimiters := by simpa using h
  rw [tokenize]
  simp [List.dropWhile_cons, List.takeWhile_cons, hm]

theorem tokenize_cons_not_delim (delimiters : Str) (ch : Char) (tl : Str)
    (h : delimiters.contains ch = false) :
    tokenize (ch :: tl) delimiters false
      = (tokenize tl delimiters false).modifyHead (List.cons ch) := by
  have hm : ch ∉ delimiters := by simpa using h
  by_cases hall : ∀ x ∈ tl, x ∉ delimiters
  · have hd : tl.dropWhile (fun c2 => !delimiters.contains c2) = [] := by
      rw [List.dropWhile_eq_nil_iff]
      intro x hx
      simp [hall x hx]
    have htl : tokenize tl delimiters false
        = [tl.takeWhile (fun c2 => !delimiters.contains c2)] := by
      rw [tokenize, hd]
      simp
    rw [tokenize, htl]
    simp [List.dropWhile_cons, List.takeWhile_cons, hm, hall]
    intro x hx hxd
    exact absurd hxd (hall x hx)
  · have hd : ¬tl.dropWhile (fun c2 => !delimiters.contains c2) = [] := by
      rw [List.dropWhile_eq_nil_iff]
      simpa using hall
    have hne : ¬((tl.dropWhile (fun c2 => !delimiters.contains c2)).isEmpty = true) := by
      simpa [List.isEmpty_iff] using hd
    have htl : tokenize tl delimiters false
        = tl.takeWhile (fun c2 => !delimiters.contains c2)
          :: tokenize (tl.dropWhile (fun c2 => !delimiters.contains c2)).tail
              delimiters false := by
      rw [tokenize, if_neg hne]
      simp
    rw [tokenize, htl]
    simp [List.dropWhile_cons, List.takeWhile_cons, hm, hall]

theorem tokenize_single_eq_splitOn (s : Str) (c : Char) :
    tokenize s [c] false = s.splitOn c := by
  induction s with
  | nil =>
    rw [tokenize_nil]
    simp [List.splitOn]
  | cons ch tl ih =>
    by_cases hch : ch = c
    · subst hch
      rw [tokenize_cons_delim [ch] ch tl (by simp), ih]
      simp [List.splitOn, List.splitOnP_cons]
    · rw [tokenize_cons_not_delim [c] ch tl (by simp [hch]), ih]
      simp [List.splitOn, List.splitOnP_cons, hch]

theorem splitOn_length_count (s : Str) (c : Char) :
    (s.splitOn c).length = s.count c + 1 := by
  induction s with
  | nil => simp
  | cons ch tl ih =>
    by_cases hch : ch = c
    · subst hch
      simp only [List.splitOn] at ih ⊢
      rw [List.splitOnP_cons]
      simp [ih, List.count_cons_self]
    · simp only [List.splitOn] at ih ⊢
      rw [List.splitOnP_cons]
      simp only [beq_iff_eq, hch, if_false, length_modifyHead, ih,
        List.count_cons_of_ne (fun hc => hch hc.symm)]

/-- C8: with a single delimiter character and trimEmpty = false,
tokenize produces exactly (occurrences of c in s) + 1 tokens, and a
correct join of the tokens (the separator between every adjacent pair)
reproduces s exactly. -/
theorem tokenize_single_delim_round_trip (s : Str) (c : Char) :
    (tokenize s [c] false).length = s.count c + 1
    ∧ joinLoop (tokenize s [c] false) c = s := by
  rw [tokenize_single_eq_splitOn, joinLoop_eq_intercalate]
  exact ⟨splitOn_length_count s c, List.intercalate_splitOn s c⟩

theorem lastN_cons (n : Nat) (x : α) (l : List α) (h : n ≤ l.length) :
    lastN n (x :: l) = lastN n l := by
  unfold lastN
  have h1 : (x :: l).length - n = (l.length - n) + 1 := by
    rw [List.length_cons]
    omega
  rw [h1, List.drop_succ_cons]

theorem lastN_of_length_le (n : Nat) (l : List α) (h : l.length ≤ n) : lastN n l = l := by
  unfold lastN
  rw [Nat.sub_eq_zero_of_le h, List.drop_zero]

theorem addMessage_length_le (capacity : Nat) (duration now : Int) (s : PanelState)
    (text : String) (red green blue : Int) (hs : s.messages.length ≤ capacity) :
    (AddNotificationPanelMessage capacity duration now s text red green blue).messages.length
      ≤ capacity := by
  simp only [AddNotificationPanelMessage]
  split
  · rename_i hlt
    simp only [List.length_tail, List.length_append, List.length_cons, List.length_nil]
    omega
  · rename_i hge
    simp only [List.length_append, List.length_cons, List.length_nil] at hge ⊢
    omega

theorem applyAdds_messages (capacity : Nat) (duration : Int) (calls : List AddInput)
    (s : PanelState) (hs : s.messages.length ≤ capacity) :
    (applyAdds capacity duration s calls).messages
      = lastN capacity (s.messages ++ calls.map mkMessage) := by
  induction calls generalizing s with
  | nil =>
    simp only [applyAdds, List.foldl_nil, List.map_nil, List.append_nil]
    exact (lastN_of_length_le _ _ hs).symm
  | cons a rest ih =>
    have step : applyAdds capacity duration s (a :: rest)
        = applyAdds capacity duration
            (AddNotificationPanelMessage capacity duration a.now s a.text a.red a.green a.blue)
            rest := rfl
    rw [step, ih _ (addMessage_length_le capacity duration a.now s a.text a.red a.green a.blue hs)]
    have hmsgs : (AddNotificationPanelMessage capacity duration a.now s
          a.text a.red a.green a.blue).messages
        = (if capacity < (s.messages ++ [mkMessage a]).length
           then (s.messages ++ [mkMessage a]).tail
           else s.messages ++ [mkMessage a]) := rfl
    rw [hmsgs, List.map_cons]
    have hassoc : s.messages ++ mkMessage a :: rest.map mkMessage
        = (s.messages ++ [mkMessage a]) ++ rest.map mkMessage := by
      simp
    rw [hassoc]
    split
    · rename_i hlt
      cases hM : s.messages ++ [mkMessage a] with
      | nil => exact absurd hM (by simp)
      | cons x t =>
        have hlen : t.length = s.messages.length := by
          have := congrArg List.length hM
          simp at this
          omega
        rw [List.tail_cons, List.cons_append]
        have hcap : capacity ≤ (t ++ rest.map mkMessage).length := by
          rw [hM] at hlt
          simp only [List.length_append, List.length_cons] at hlt ⊢
          omega
        exact (lastN_cons capacity x (t ++ rest.map mkMessage) hcap).symm
    · rfl

/-- C1: any sequence of AddNotificationPanelMessage calls longer than
the capacity leaves exactly the last capacity messages, in arrival
order: the oldest entries are evicted first (FIFO). -/
theorem addMessage_fifo (capacity : Nat) (duration : Int) (s : PanelState)
    (calls : List AddInput) (hs : s.messages.length ≤ capacity)
    (hn : capacity < calls.length) :
    (applyAdds capacity duration s calls).messages
      = (calls.map mkMessage).drop (calls.length - capacity) := by
  rw [applyAdds_messages capacity duration calls s hs]
  unfold lastN
  have hlen : (s.messages ++ calls.map mkMessage).length
      = s.messages.length + calls.length := by
    simp
  rw [hlen]
  have harith : s.messages.length + calls.length - capacity
      = s.messages.length + (calls.length - capacity) := by omega
  rw [harith, List.drop_append]

/-- Witness for C1: the spec scenario capacity = 3, adds A, B, C, D;
the panel retains exactly B, C, D in arrival order. -/
theorem addMessage_fifo_witness :
    (applyAdds 3 5 initialPanel
        [⟨1, "A", 255, 255, 255⟩, ⟨2, "B", 255, 255, 255⟩,
         ⟨3, "C", 255, 255, 255⟩, ⟨4, "D", 255, 255, 255⟩]).messages
      = ([⟨1, "A", 255, 255, 255⟩, ⟨2, "B", 255, 255, 255⟩,
          ⟨3, "C", 255, 255, 255⟩, ⟨4, "D", 255, 255, 255⟩].map mkMessage).drop 1
    ∧ (([⟨1, "A", 255, 255, 255⟩, ⟨2, "B", 255, 255, 255⟩,
          ⟨3, "C", 255, 255, 255⟩, ⟨4, "D", 255, 255, 255⟩] : List AddInput).map
            mkMessage).drop 1
      = [⟨"B", 255, 255, 255⟩, ⟨"C", 255, 255, 255⟩, ⟨"D", 255, 255, 255⟩] :=
  ⟨addMessage_fifo 3 5 initialPanel
      [⟨1, "A", 255, 255, 255⟩, ⟨2, "B", 255, 255, 255⟩,
       ⟨3, "C", 255, 255, 255⟩, ⟨4, "D", 255, 255, 255⟩] (by decide) (by decide),
   by decide⟩

/-- C2: the per-frame tick hides a visible panel exactly when the
deadline has been reached and the panel is not pinned; the tick never
shows a hidden panel; and neither AddNotificationPanelMessage nor
Toggle ever hides a visible panel, so the tick is the only hiding
transition. -/
theorem tick_visibility (s : PanelState) (now : Int) :
    (s.visible = true →
      ((onFlightLoop now s).visible = false
        ↔ (s.disappearDeadline ≤ now ∧ s.alwaysVisible = false)))
    ∧ (s.visible = false → (onFlightLoop now s).visible = false)
    ∧ (∀ (capacity : Nat) (duration tnow : Int) (text : String) (red green blue : Int),
        (AddNotificationPanelMessage capacity duration tnow s text red green blue).visible
          = true)
    ∧ (s.visible = true → (Toggle s).visible = true) := by
  refine ⟨?_, ?_, ?_, ?_⟩
  · intro hv
    by_cases hav : s.alwaysVisible
    · simp [onFlightLoop, hav, hv]
    · by_cases hdl : s.disappearDeadline ≤ now
      · simp [onFlightLoop, hav, hdl]
      · simp [onFlightLoop, hav, hdl, hv]
  · intro hv
    unfold onFlightLoop
    split
    · rfl
    · exact hv
  · intro capacity duration tnow text red green blue
    rfl
  · intro hv
    simp [Toggle, hv]

/-- Witness for C2 at a visible, unpinned panel with deadline 10:
ticking at 20 hides it, while Toggle keeps it visible. -/
theorem tick_visibility_witness :
    (onFlightLoop 20 demoVisiblePanel).visible = false
    ∧ (Toggle demoVisiblePanel).visible = true :=
  ⟨((tick_visibility demoVisiblePanel 20).1 rfl).mpr (by decide),
   (tick_visibility demoVisiblePanel 20).2.2.2 rfl⟩

/-- C3: calling Toggle twice in succession restores alwaysVisible (and
leaves the deadline untouched), and for a panel that was not pinned the
next tick applies the deadline rule: visible exactly when the current
time is before disappearDeadline. -/
theorem toggle_twice (s : PanelState) (now : Int) :
    (Toggle (Toggle s)).alwaysVisible = s.alwaysVisible
    ∧ (Toggle (Toggle s)).disappearDeadline = s.disappearDeadline
    ∧ (s.alwaysVisible = false →
        (onFlightLoop now (Toggle (Toggle s))).visible
          = decide (now < s.disappearDeadline)) := by
  refine ⟨by simp [Toggle], by simp [Toggle], ?_⟩
  intro hav
  by_cases hdl : s.disappearDeadline ≤ now
  · have h2 : ¬now < s.disappearDeadline := by omega
    simp [Toggle, onFlightLoop, hav, hdl, h2]
  · have h2 : now < s.disappearDeadline := by omega
    simp [Toggle, onFlightLoop, hav, hdl, h2]

/-- Witness for C3 at the demo panel (deadline 10, not pinned), ticking
at 3 after the double toggle: still visible since 3 < 10. -/
theorem toggle_twice_witness :
    (Toggle (Toggle demoVisiblePanel)).alwaysVisible = false
    ∧ (onFlightLoop 3 (Toggle (Toggle demoVisiblePanel))).visible = decide ((3 : Int) < 10) :=
  ⟨(toggle_twice demoVisiblePanel 3).1, (toggle_twice demoVisiblePanel 3).2.2 rfl⟩

theorem clampColor_mem (x : Int) : 0 ≤ clampColor x ∧ clampColor x ≤ 255 := by
  unfold clampColor
  constructor
  · exact le_max_left 0 _
  · exact max_le (by norm_num) (min_le_left _ _)

theorem addMessage_getLast (capacity : Nat) (duration now : Int) (s : PanelState)
    (text : String) (red green blue : Int) (hcap : 0 < capacity) :
    (AddNotificationPanelMessage capacity duration now s text red green blue).messages.getLast?
      = some ⟨text, clampColor red, clampColor green, clampColor blue⟩ := by
  simp only [AddNotificationPanelMessage]
  split
  · rename_i hlt
    cases hm : s.messages with
    | nil =>
      rw [hm] at hlt
      simp only [List.nil_append, List.length_cons, List.length_nil] at hlt
      omega
    | cons x t =>
      simp only [List.cons_append, List.tail_cons]
      exact List.getLast?_concat _
  · exact List.getLast?_concat _

/-- C4: out-of-range color components are clamped into [0, 255] rather
than rejected: the call stores the message, its stored components are
the clamped values, and every clamped component lies in [0, 255]. -/
theorem addMessage_clamps_colors (capacity : Nat) (duration now : Int) (s : PanelState)
    (text : String) (red green blue : Int) (hcap : 0 < capacity) :
    (AddNotificationPanelMessage capacity duration now s text red green blue).messages.getLast?
      = some ⟨text, clampColor red, clampColor green, clampColor blue⟩
    ∧ (0 ≤ clampColor red ∧ clampColor red ≤ 255)
    ∧ (0 ≤ clampColor green ∧ clampColor green ≤ 255)
    ∧ (0 ≤ clampColor blue ∧ clampColor blue ≤ 255) :=
  ⟨addMessage_getLast capacity duration now s text red green blue hcap,
   clampColor_mem red, clampColor_mem green, clampColor_mem blue⟩

/-- Witness for C4: the spec scenario AddMessage("x", (300, -10, 255))
stores the clamped color (255, 0, 255). -/
theorem addMessage_clamps_colors_witness :
    (AddNotificationPanelMessage 1 5 0 initialPanel "x" 300 (-10) 255).messages.getLast?
      = some ⟨"x", clampColor 300, clampColor (-10), clampColor 255⟩
    ∧ clampColor 300 = 255 ∧ clampColor (-10) = 0 ∧ clampColor 255 = 255 :=
  ⟨(addMessage_clamps_colors 1 5 0 initialPanel "x" 300 (-10) 255 (by decide)).1,
   by decide, by decide, by decide⟩

/-- C7: a call that leaves the color parameters at their declared
defaults stores the message with color (255, 255, 255). -/
theorem addMessage_default_color (capacity : Nat) (duration now : Int) (s : PanelState)
    (text : String) (hcap : 0 < capacity) :
    (AddNotificationPanelMessageDefault capacity duration now s text).messages.getLast?
      = some ⟨text, 255, 255, 255⟩ := by
  unfold AddNotificationPanelMessageDefault
  rw [addMessage_getLast capacity duration now s text 255 255 255 hcap]
  norm_num [clampColor]

/-- Witness for C7: adding "hello" with default color to the initial
panel stores color (255, 255, 255). -/
theorem addMessage_default_color_witness :
    (AddNotificationPanelMessageDefault 1 5 0 initialPanel "hello").messages.getLast?
      = some ⟨"hello", 255, 255, 255⟩ :=
  addMessage_default_color 1 5 0 initialPanel "hello" (by decide)

end Plugin
